import Mathlib

/-!
Formal model of the core subsystems of a WhatsApp sales bot:

* `search.js` — lexical normalizer (`extractKeywords`), relevance ranker
  (`searchProducts`), highlight fallback (`getHighlightProducts`) and the
  catalog loader (`loadCatalog`);
* `router.js` + `db.js` — round-robin assignment router (`assignClient`)
  over a SQLite-backed assignment table;
* `index.js` — the inbound-message gate chain (anti-bot filter, anti-loop
  filter, media handling, command routing) and the escalation decision
  (`detectHandoffIntent`, `handleClientMessage`).

Strings are modelled as Lean `String` / `List Char`.  JavaScript's
`toLowerCase()` followed by `normalize('NFD').replace(/[̀-ͯ]/g,'')`
is modelled by per-character tables covering the ASCII and Spanish
(Latin-1 accented) repertoire the bot operates on.  JavaScript numbers are
modelled as `Nat`/`Int` (all arithmetic in the modelled code stays small and
integral).  The SQLite tables are modelled as in-memory lists and the
stateful module-level variables as explicit state records.
-/

namespace Bot

/-! ### Character-level normalization (search.js / index.js text cleaning) -/

/-- Whitespace characters recognised by the model of the regex `\s`
(space, tab, LF, CR, VT, FF). -/
def wsChars : List Char := [' ', '\t', '\n', '\r', Char.ofNat 11, Char.ofNat 12]

def isWsCh (c : Char) : Bool := wsChars.contains c

/-- Lower-casing table: models `String.prototype.toLowerCase` on the
ASCII letters and the Spanish accented capitals. -/
def lowerPairs : List (Char × Char) :=
  [('A', 'a'), ('B', 'b'), ('C', 'c'), ('D', 'd'), ('E', 'e'), ('F', 'f'),
   ('G', 'g'), ('H', 'h'), ('I', 'i'), ('J', 'j'), ('K', 'k'), ('L', 'l'),
   ('M', 'm'), ('N', 'n'), ('O', 'o'), ('P', 'p'), ('Q', 'q'), ('R', 'r'),
   ('S', 's'), ('T', 't'), ('U', 'u'), ('V', 'v'), ('W', 'w'), ('X', 'x'),
   ('Y', 'y'), ('Z', 'z'),
   ('Á', 'á'), ('É', 'é'), ('Í', 'í'), ('Ó', 'ó'), ('Ú', 'ú'), ('Ü', 'ü'),
   ('Ñ', 'ñ')]

def toLowerCh (c : Char) : Char := (lowerPairs.lookup c).getD c

/-- Diacritic-stripping table: models `normalize('NFD')` followed by
removal of the combining marks U+0300–U+036F, on lower-case Spanish text
(the input is always lower-cased first in the source). -/
def deaccentPairs : List (Char × Char) :=
  [('á', 'a'), ('é', 'e'), ('í', 'i'), ('ó', 'o'), ('ú', 'u'), ('ü', 'u'),
   ('ñ', 'n')]

def deaccentCh (c : Char) : Char := (deaccentPairs.lookup c).getD c

/-- The composite `toLowerCase().normalize('NFD').replace(/[̀-ͯ]/g, '')`
applied character-wise. -/
def normCh (c : Char) : Char := deaccentCh (toLowerCh c)

/-- The punctuation class of `extractKeywords`:
`¿ ? ¡ ! . , ; : ( ) \x7b \x7d [ ] " '` (regex `/[¿?¡!.,;:(){}[\]"']/`).
Written with code points to keep brackets and quotes out of char literals. -/
def searchPunctChars : List Char :=
  [Char.ofNat 191, Char.ofNat 63, Char.ofNat 161, Char.ofNat 33,
   Char.ofNat 46, Char.ofNat 44, Char.ofNat 59, Char.ofNat 58,
   Char.ofNat 40, Char.ofNat 41, Char.ofNat 123, Char.ofNat 125,
   Char.ofNat 91, Char.ofNat 93, Char.ofNat 34, Char.ofNat 39]

/-- The punctuation class of `detectHandoffIntent`:
`¿ ? ¡ ! . , ; : ( )` (regex `/[¿?¡!.,;:()]/`, replaced by nothing). -/
def handoffPunctChars : List Char :=
  [Char.ofNat 191, Char.ofNat 63, Char.ofNat 161, Char.ofNat 33,
   Char.ofNat 46, Char.ofNat 44, Char.ofNat 59, Char.ofNat 58,
   Char.ofNat 40, Char.ofNat 41]

/-- One character of the `extractKeywords` cleaning pipeline: lower-case,
strip diacritics, then replace the punctuation class by a space
(`.replace(/[¿?¡!.,;:(){}[\]"']/g, ' ')`). -/
def cleanCh (c : Char) : Char :=
  if searchPunctChars.contains (normCh c) then ' ' else normCh c

/-- Split a character list into maximal whitespace-free chunks, keeping
empty chunks at whitespace boundaries (the shape produced by
`split` on a separator).  `chunks s` is always non-empty. -/
def chunks : List Char → List (List Char)
  | [] => [[]]
  | c :: cs =>
    if isWsCh c then [] :: chunks cs
    else
      match chunks cs with
      | [] => [[c]]
      | w :: ws => (c :: w) :: ws

/-- The whitespace-separated words of `s`.  Models the composite
`.replace(/\s+/g, ' ').trim().split(' ')` followed by dropping empty
tokens (empty tokens are dropped anyway by the `w.length > 1` filter in
the source, so the two pipelines extract the same keyword list). -/
def splitWs (s : List Char) : List (List Char) :=
  (chunks s).filter (fun w => !w.isEmpty)

/-- `String.prototype.includes`: does `pat` occur contiguously in `s`? -/
def containsSub : List Char → List Char → Bool
  | pat, [] => pat.isEmpty
  | pat, c :: cs => pat.isPrefixOf (c :: cs) || containsSub pat cs

/-- `String.prototype.trim` (both-ends whitespace strip). -/
def jsTrim (s : String) : String :=
  String.mk (((s.toList.dropWhile isWsCh).reverse.dropWhile isWsCh).reverse)

/-! ### search.js — stop words, synonyms, keyword extraction -/

/-- `STOP_WORDS` from search.js, verbatim (duplicates kept; only
membership matters). -/
def stopWords : List String :=
  ["el", "la", "los", "las", "un", "una", "unos", "unas",
   "de", "del", "en", "con", "por", "para", "al", "a",
   "y", "o", "que", "es", "se", "no", "si", "su", "sus",
   "me", "te", "le", "lo", "mi", "tu", "ya", "hay",
   "como", "pero", "más", "mas", "este", "esta", "ese", "esa",
   "ser", "son", "está", "esta", "muy", "tan", "aquí", "ahí",
   "hola", "buenas", "buenos", "dias", "días", "tardes", "noches", "gracias",
   "tienen", "tienes", "tiene", "quiero", "necesito", "busco",
   "ver", "saber", "cual", "cuál", "cuales", "cuáles",
   "algo", "todo", "todos", "eso", "esto", "bien", "bueno", "dale",
   "puedo", "puede", "podría", "favor", "por favor",
   "info", "información", "informacion", "sobre",
   "cuánto", "cuanto", "cuestan", "cuesta", "vale", "valen",
   "hay", "donde", "dónde", "cuando", "cuándo", "quien", "quién",
   "marca", "modelo", "tipo", "qué", "que",
   "cómo", "como", "están", "estan", "estás", "estas", "oye", "oiga",
   "por", "porfavor", "disculpa", "disculpe", "perdón", "perdon"]

def stopWordsL : List (List Char) := stopWords.map String.toList

/-- The word filter of `extractKeywords`:
`words.filter(w => w.length > 1 && !STOP_WORDS.has(w))`. -/
def goodWord (w : List Char) : Bool :=
  decide (1 < w.length) && !stopWordsL.contains w

/-- `SYNONYMS` from search.js, verbatim. -/
def synPairs : List (String × List String) :=
  [("traumatica", ["traumática", "trauma", "pistola", "arma"]),
   ("traumática", ["traumatica", "trauma", "pistola", "arma"]),
   ("pistola", ["arma", "traumática", "traumatica", "revolver"]),
   ("arma", ["pistola", "traumática", "traumatica", "revolver"]),
   ("revolver", ["revólver", "ekol", "tambor"]),
   ("revólver", ["revolver", "ekol", "tambor"]),
   ("ekol", ["ekol"]),
   ("retay", ["retay"]),
   ("blow", ["blow"]),
   ("negro", ["negra", "black"]),
   ("negra", ["negro", "black"]),
   ("fume", ["fumé", "gris", "plomo"]),
   ("cromado", ["cromo", "plateado", "silver"]),
   ("compacto", ["compacta", "pequeña", "pequeño", "mini"]),
   ("mini", ["compacto", "compacta", "pequeño", "pequeña"]),
   ("magnum", ["grande", "largo", "potente"]),
   ("barato", ["económico", "economico", "precio bajo", "accesible"]),
   ("caro", ["premium", "alta gama", "top"]),
   ("club", ["membresía", "membresia", "plan", "plus", "pro"]),
   ("membresia", ["club", "membresía", "plan", "plus", "pro"]),
   ("membresía", ["club", "membresia", "plan", "plus", "pro"]),
   ("legal", ["ley", "juridico", "jurídico", "legalidad"]),
   ("juridico", ["legal", "jurídico", "ley", "defensa"]),
   ("jurídico", ["legal", "juridico", "ley", "defensa"]),
   ("defensa", ["juridico", "jurídico", "legal", "proteccion"]),
   ("carnet", ["carnét", "certificado", "documento", "qr"]),
   ("municion", ["munición", "cartuchos", "balas", "oskurzan", "rubber"]),
   ("munición", ["municion", "cartuchos", "balas", "oskurzan", "rubber"]),
   ("plan", ["plus", "pro", "membresía", "membresia", "club"]),
   ("plus", ["plan plus", "plan", "club"]),
   ("pro", ["plan pro", "plan", "club"]),
   ("asesor", ["asesor legal", "ia legal", "bot legal", "legal ia"]),
   ("policia", ["policía", "retencion", "retención", "incautacion", "ley"]),
   ("retencion", ["retención", "policia", "policía", "incautacion", "ley"]),
   ("decreto", ["decreto 2535", "ley 2197", "legal", "juridico"]),
   ("afiliacion", ["afiliación", "club", "membresia", "carnet"]),
   ("afiliación", ["afiliacion", "club", "membresia", "carnet"])]

def synPairsL : List (List Char × List (List Char)) :=
  synPairs.map (fun p => (p.1.toList, p.2.map String.toList))

/-- Own-property lookup `SYNONYMS[word]` (absent key contributes no
expansions). -/
def synOf (w : List Char) : List (List Char) := (synPairsL.lookup w).getD []

/-- One insertion into the `Set` of keywords (JS `Set.add`: insertion
order, first occurrence wins). -/
def addKw (acc : List (List Char)) (w : List Char) : List (List Char) :=
  if w ∈ acc then acc else acc ++ [w]

/-- `extractKeywords` from search.js on a character list: clean, split,
filter, then build the insertion-ordered set of the surviving words
followed by their synonym expansions (`new Set(words)` then
`words.forEach(w => SYNONYMS[w]?.forEach(add))`). -/
def extractKeywordsL (msg : List Char) : List (List Char) :=
  let ws := (splitWs (msg.map cleanCh)).filter goodWord
  (ws ++ ws.flatMap synOf).foldl addKw []

/-- `extractKeywords` on strings (`Array.from(expanded)`). -/
def extractKeywords (message : String) : List String :=
  (extractKeywordsL message.toList).map (fun w => String.mk w)

/-- `Array.prototype.join(' ')`. -/
def joinWordsL : List (List Char) → List Char
  | [] => []
  | [w] => w
  | w :: ws => w ++ ' ' :: joinWordsL ws

def joinSpace (l : List String) : String :=
  String.mk (joinWordsL (l.map String.toList))

/-! ### search.js — catalog items and scoring -/

/-- A catalog item as built by `loadCatalog`: the raw JSON fields plus the
category key and the precomputed lower-cased search fields.  Fields absent
in the JSON (`descripcion`, `marca`, `modelo`, `keywords`) are modelled by
their `|| ''` / `|| []` defaults used everywhere they are read; price and
url fields are not modelled (no modelled operation reads them). -/
structure Product where
  titulo : String
  descripcion : String
  marca : String
  modelo : String
  categoria : String
  keywords : List String
  disponible : Bool
  tituloLower : String
  descLower : String
  searchText : String
deriving DecidableEq

/-- `field.toLowerCase()` at query time (for `categoria`, `marca`,
`modelo`). -/
def lowerStr (s : String) : List Char := s.toList.map toLowerCh

/-- The score contribution of a single keyword for one product (the body
of the `keywords.forEach` in `searchProducts`). -/
def kwScore (p : Product) (kw : List Char) : Nat :=
  (if containsSub kw p.tituloLower.toList then
     10 + (if kw.isPrefixOf p.tituloLower.toList then 5 else 0)
   else 0)
  + (if containsSub kw p.descLower.toList then 3 else 0)
  + (if containsSub kw (lowerStr p.categoria) then 5 else 0)
  + (if containsSub kw (lowerStr p.marca) then 8 else 0)
  + (if containsSub kw (lowerStr p.modelo) then 8 else 0)
  + (if containsSub kw p.searchText.toList then 2 else 0)

/-- Total score of a product for a keyword list: sum over all keywords
plus the flat availability bonus (`if (product.disponible) score += 1`). -/
def productScore (p : Product) (kws : List String) : Nat :=
  (kws.map (fun kw => kwScore p kw.toList)).sum + (if p.disponible then 1 else 0)

/-- A scored catalog entry.  `idx` is the item's position in the catalog
array (implicit in the JS array order); it is made explicit so that the
stability of the sort can be stated. -/
structure Scored where
  idx : Nat
  item : Product
  score : Nat
deriving DecidableEq

/-- The `scored` array of `searchProducts`: every catalog item tagged with
its position and its score. -/
def scoredCatalog (catalogo : List Product) (kws : List String) : List Scored :=
  catalogo.enum.map (fun ip => ⟨ip.1, ip.2, productScore ip.2 kws⟩)

/-- The order produced by the ECMAScript stable sort with comparator
`(a, b) => b._score - a._score`: score strictly descending, ties kept in
input (= catalog) order. -/
def rankOrder (a b : Scored) : Prop :=
  b.score < a.score ∨ (a.score = b.score ∧ a.idx ≤ b.idx)

instance rankOrderDecidable : DecidableRel rankOrder := fun a b => by
  unfold rankOrder; infer_instance

instance rankOrderTotal : IsTotal Scored rankOrder :=
  ⟨fun a b => by unfold rankOrder; omega⟩

instance rankOrderTrans : IsTrans Scored rankOrder :=
  ⟨fun a b c hab hbc => by unfold rankOrder at *; omega⟩

/-- The fixed brand list of `getHighlightProducts`. -/
def highlightMarcas : List String := ["RETAY", "EKOL", "BLOW"]

/-- `getHighlightProducts`: for each brand, the first available catalog
item of that category, if any. -/
def getHighlightProducts (catalogo : List Product) : List Product :=
  highlightMarcas.filterMap
    (fun marca => (catalogo.filter (fun p => p.categoria == marca && p.disponible)).head?)

/-- The two result shapes of `searchProducts`: the `strategy` field of the
returned object is `'highlights'` or `'search'`, and only the `'search'`
shape carries `_score` fields on its products. -/
inductive SearchResult where
  | highlights (keywords : List String) (products : List Product) (totalFound : Nat)
  | search (keywords : List String) (products : List Scored) (totalFound : Nat)
deriving DecidableEq

def SearchResult.strategy : SearchResult → String
  | .highlights _ _ _ => "highlights"
  | .search _ _ _ => "search"

def SearchResult.keywords : SearchResult → List String
  | .highlights ks _ _ => ks
  | .search ks _ _ => ks

/-- The scored product list of a `'search'`-strategy result. -/
def SearchResult.scoredItems : SearchResult → List Scored
  | .highlights _ _ _ => []
  | .search _ ps _ => ps

/-- The product list of a `'highlights'`-strategy result. -/
def SearchResult.highlightItems : SearchResult → List Product
  | .highlights _ ps _ => ps
  | .search _ _ _ => []

def SearchResult.totalFound : SearchResult → Nat
  | .highlights _ _ t => t
  | .search _ _ t => t

/-- `searchProducts` from search.js.  The in-memory catalog is passed
explicitly (the source's lazy `loadCatalog()` reload on an empty catalog
is an I/O action outside this model).  The ECMAScript sort
(`.sort((a, b) => b._score - a._score)`, stable by specification) is
modelled by insertion sort under `rankOrder`, which produces exactly the
score-descending, catalog-order-on-ties permutation. -/
def searchProducts (catalogo : List Product) (message : String) (maxResults : Nat) :
    SearchResult :=
  let keywords := extractKeywords message
  if keywords.isEmpty then
    .highlights [] (getHighlightProducts catalogo) 0
  else
    let scored := scoredCatalog catalogo keywords
    let positive := scored.filter (fun s => decide (0 < s.score))
    .search keywords ((List.insertionSort rankOrder positive).take maxResults)
      positive.length

/-! ### search.js — `loadCatalog` -/

/-- A product record as it sits in `catalogo_contexto.json` (fields that
may be absent are `Option`s; price/url fields are not modelled). -/
structure RawProduct where
  titulo : Option String
  descripcion : Option String
  marca : Option String
  modelo : Option String
  keywords : Option (List String)
  disponible : Bool
deriving DecidableEq

/-- The item pushed onto `catalogo` for one raw product (requires
`titulo` present — `p.titulo.toLowerCase()` throws otherwise).  Note the
`_searchText` template literal interpolates a missing `descripcion` as
the string `"undefined"` (no `|| ''` fallback there in the source). -/
def mkCatalogProduct (categoria : String) (p : RawProduct) (t : String) : Product :=
  { titulo := t
    descripcion := p.descripcion.getD ""
    marca := p.marca.getD ""
    modelo := p.modelo.getD ""
    categoria := categoria
    keywords := p.keywords.getD []
    disponible := p.disponible
    tituloLower := String.mk (t.toList.map toLowerCh)
    descLower := String.mk ((p.descripcion.getD "").toList.map toLowerCh)
    searchText := String.mk
      ((t ++ " " ++ (match p.descripcion with | some d => d | none => "undefined")
          ++ " " ++ p.marca.getD "" ++ " " ++ p.modelo.getD "" ++ " " ++ categoria
          ++ " " ++ joinSpace (p.keywords.getD [])).toList.map toLowerCh) }

/-- What `loadCatalog` finds when it reads and parses its source file:
either the read/parse throws (unreadable file or invalid JSON), or it
yields a parsed document whose `categorias` key may be absent. -/
inductive LoadSource where
  | unreadable
  | parsed (categorias : Option (List (String × List RawProduct)))
deriving DecidableEq

/-- The `productos.forEach(p => catalogo.push(...))` loop over one
category.  Returns the catalog array as left when the loop finishes or
throws (`true` = a `TypeError` escaped because some `p.titulo` was
absent; items before the faulty one have already been pushed). -/
def pushCategoria (categoria : String) : List RawProduct → List Product → List Product × Bool
  | [], acc => (acc, false)
  | p :: rest, acc =>
    match p.titulo with
    | none => (acc, true)
    | some t => pushCategoria categoria rest (acc ++ [mkCatalogProduct categoria p t])

/-- The `for (const [categoria, productos] of Object.entries(...))` loop. -/
def buildCategorias : List (String × List RawProduct) → List Product → List Product × Bool
  | [], acc => (acc, false)
  | e :: rest, acc =>
    match pushCategoria e.1 e.2 acc with
    | (acc2, true) => (acc2, true)
    | (acc2, false) => buildCategorias rest acc2

/-- The `try` body of `loadCatalog`: the resulting `catalogo` module state
together with whether an exception was thrown inside the body.  A
read/parse failure happens before the `catalogo = []` reset, so it leaves
the old catalog; a parsed document without `categorias` throws in
`Object.entries` after the reset; a missing `titulo` throws mid-loop. -/
def loadCatalogState : LoadSource → List Product → List Product × Bool
  | .unreadable, old => (old, true)
  | .parsed none, _ => ([], true)
  | .parsed (some cats), _ => buildCategorias cats []

/-- `loadCatalog`: the `catch` block only logs, so the caller always sees
a normal return and the new `catalogo` state is whatever the body left
behind. -/
def loadCatalog (src : LoadSource) (old : List Product) : List Product :=
  (loadCatalogState src old).1

/-! ### router.js + db.js — round-robin assignment -/

/-- A row of the `employees` table (only the columns `assignClient`
reads).  `assignments_count` lives in `RouterState.counts`. -/
structure Employee where
  id : Nat
  name : String
  phone : String
deriving DecidableEq

/-- A row of the `assignments` table; `active = true` models
`status = 'active'`, `false` models `'completed'`. -/
structure Row where
  client : String
  employee_id : Nat
  active : Bool
deriving DecidableEq

/-- The mutable state `assignClient` touches: the module-level
`lastAssignedIndex` cursor, the `assignments` rows (in `assigned_at`
order — SQLite appends with increasing autoincrement ids), and the
`assignments_count` column of `employees` keyed by employee id. -/
structure RouterState where
  lastAssignedIndex : Int
  rows : List Row
  counts : List (Nat × Nat)
deriving DecidableEq

/-- `db.getActiveAssignment`: the newest `active` row of the client
(`ORDER BY assigned_at DESC LIMIT 1`). -/
def getActiveAssignment (rows : List Row) (clientPhone : String) : Option Row :=
  (rows.filter (fun r => r.client == clientPhone && r.active)).getLast?

def defaultEmployee : Employee := ⟨0, "", ""⟩

/-- `db.createAssignment`: complete every active row of the client,
append the new active row, and increment the employee's
`assignments_count`. -/
def createAssignmentState (s : RouterState) (clientPhone : String) (employeeId : Nat) :
    RouterState :=
  { s with
    rows := (s.rows.map fun r =>
        if r.client == clientPhone && r.active then { r with active := false } else r)
      ++ [⟨clientPhone, employeeId, true⟩]
    counts := s.counts.map fun pc =>
      if pc.1 = employeeId then (pc.1, pc.2 + 1) else pc }

/-- `router.assignClient`: sticky return of an existing active
assignment; otherwise advance the cursor by `+1 mod roster length`
(JavaScript `%`; the dividend `lastAssignedIndex + 1` is non-negative in
every reachable state, where JS `%` agrees with `Int.emod`), select that
employee, and create the assignment.  `emps` is `db.getActiveEmployees()`
(fixed roster). -/
def assignClient (emps : List Employee) (s : RouterState) (clientPhone : String) :
    Option Row × RouterState :=
  match getActiveAssignment s.rows clientPhone with
  | some a => (some a, s)
  | none =>
    if emps.length = 0 then (none, s)
    else
      let newIdx : Int := (s.lastAssignedIndex + 1) % (emps.length : Int)
      let e := emps.getD newIdx.toNat defaultEmployee
      let s2 := createAssignmentState { s with lastAssignedIndex := newIdx } clientPhone e.id
      (getActiveAssignment s2.rows clientPhone, s2)

/-- A sequence of `assignClient` calls, collecting the returned
assignments. -/
def runAssign (emps : List Employee) : RouterState → List String → List (Option Row) × RouterState
  | s, [] => ([], s)
  | s, p :: ps =>
    let r := assignClient emps s p
    let rest := runAssign emps r.2 ps
    (r.1 :: rest.1, rest.2)

/-! ### index.js — message gate chain and escalation decision -/

/-- `BLOCKED_NAMES` from the anti-bot filter, verbatim. -/
def blockedNames : List String :=
  ["bancolombia", "nequi", "daviplata", "dale", "rappipay", "rappi",
   "movii", "tpaga", "bold", "payvalida", "payu", "epayco",
   "claro", "movistar", "tigo", "wom", "etb", "une",
   "compensar", "sura", "eps", "colmedica", "sanitas", "coomeva",
   "servientrega", "envia", "interrapidisimo", "coordinadora", "deprisa", "fedex",
   "uber", "didi", "indriver", "beat",
   "taskus", "task us", "task_us",
   "google", "whatsapp", "meta", "facebook", "instagram", "telegram",
   "chatgpt", "openai", "gemini", "copilot", "claude", "bot",
   "verificación", "verificacion", "verification", "security", "seguridad",
   "notificación", "notificacion", "notification", "alerta", "alert"]

/-- `String.prototype.replace` with a string pattern: replace the first
occurrence of `pat` by the empty string. -/
def replaceFirstL (pat : List Char) : List Char → List Char
  | [] => []
  | c :: cs =>
    if pat.isPrefixOf (c :: cs) then (c :: cs).drop pat.length
    else c :: replaceFirstL pat cs

def jsReplaceFirst (s pat : String) : String :=
  String.mk (replaceFirstL pat.toList s.toList)

/-- `buyKeywords` of `detectHandoffIntent`, verbatim. -/
def buyKeywords : List String :=
  ["quiero comprar", "quiero comprarlo", "quiero comprarla",
   "lo quiero", "la quiero", "me lo llevo", "me la llevo", "lo llevo",
   "quiero hacer un pedido", "hacer pedido", "quiero ordenar",
   "me interesa comprar", "listo para comprar", "listo para pagar",
   "quiero pagar", "ya quiero pagar", "como pago", "donde pago",
   "quiero el plan", "quiero afiliarme", "quiero inscribirme",
   "tomenme los datos", "tomen mis datos", "tome mis datos",
   "ya me decidi", "ya me decidí", "va listo", "dale listo",
   "hagamosle", "hagamole", "vamos con eso", "cerremos",
   "separamelo", "separamela", "apartamelo", "apartamela"]

/-- `humanKeywords` of `detectHandoffIntent`, verbatim. -/
def humanKeywords : List String :=
  ["hablar con alguien", "hablar con humano", "hablar con persona",
   "hablar con asesor", "hablar con vendedor", "hablar con agente",
   "hablar con un asesor", "hablar con un humano", "hablar con un vendedor",
   "quiero un asesor", "quiero un humano", "quiero una persona",
   "pasar con alguien", "pasar con humano", "pasar con asesor",
   "pasame con", "pasame a",
   "redirigeme", "redirigime", "redirigame", "redirige", "rediriga",
   "transfiereme", "transferir", "transferirme", "transfiera",
   "comunicame", "conectame", "conecteme",
   "necesito ayuda personalizada", "atencion humana",
   "no quiero bot", "no eres humano", "eres robot", "eres un bot",
   "agente humano", "persona real",
   "quiero asesor", "necesito asesor", "un asesor",
   "con un humano", "con una persona", "con alguien real",
   "humano por favor", "asesor por favor"]

/-- The normalized message `detectHandoffIntent` matches against:
lower-case, strip accents, delete the punctuation class
`/[¿?¡!.,;:()]/g`. -/
def handoffNorm (message : String) : List Char :=
  (message.toList.map normCh).filter (fun c => !handoffPunctChars.contains c)

/-- `kws.some(kw => lowerMessage.includes(kw))`. -/
def anyKeywordHits (kws : List String) (lowerMessage : List Char) : Bool :=
  kws.any (fun kw => containsSub kw.toList lowerMessage)

/-- `detectHandoffIntent(message, humanOnly)` from index.js. -/
def detectHandoffIntent (message : String) (humanOnly : Bool) : Bool :=
  let lowerMessage := handoffNorm message
  if humanOnly then anyKeywordHits humanKeywords lowerMessage
  else
    anyKeywordHits buyKeywords lowerMessage || anyKeywordHits humanKeywords lowerMessage

/-- Does the message contain a purchase-confirmation phrase? (The
`buyKeywords.some(...)` half of `detectHandoffIntent`.) -/
def containsBuyPhrase (message : String) : Bool :=
  anyKeywordHits buyKeywords (handoffNorm message)

/-- Does the message contain an explicit human-handoff phrase? (The
`humanKeywords.some(...)` half, which is `detectHandoffIntent(m, true)`.) -/
def containsHumanPhrase (message : String) : Bool :=
  anyKeywordHits humanKeywords (handoffNorm message)

/-- The message-independent context of one inbound message, as read by the
`client.on('message')` handler.  Fields that are environmental stubs
(config flags, db membership checks, the anti-loop timestamp window, and
whether one of the `BOT_PATTERNS` regexes matches the body) are carried
as inputs; everything computed from the message text is computed in
`classify` itself. -/
structure MsgCtx where
  fromMe : Bool
  senderJid : String
  chatName : String
  isGroup : Bool
  ignoreGroups : Bool
  isChannel : Bool
  chatType : String
  msgType : String
  hasMedia : Bool
  body : String
  botPatternHit : Bool
  trackerCount : Nat
  isAdminSender : Bool
  isAuditorSender : Bool
  isEmployeeSender : Bool
  historyLen : Nat
deriving DecidableEq

/-- How the handler disposes of one inbound message. -/
inductive Outcome where
  | ignored
  | suppressedAutomatedSender
  | suppressedLoop
  | mediaHandled
  | adminCommand
  | auditorIgnored
  | employeeIgnored
  | escalated
  | aiReply
deriving DecidableEq

/-- The media types the media branch tests for. -/
def mediaTypes : List String := ["ptt", "audio", "image", "video", "document", "sticker"]

/-- The gate chain of `client.on('message')` followed by the
escalate-or-reply decision of `handleClientMessage`, in source order:
early ignores, anti-bot filter, anti-loop filter, media branch, empty
body, admin command, auditor, employee, then
`wantsHuman && hasEnoughHistory || wantsHumanExplicit`.
`trackerCount` is the size of the sender's pruned 5-minute window after
the current message is pushed; `historyLen` is
`db.getConversationHistory(sender, 10).length` at the decision point
(the current user message has already been saved). -/
def classify (m : MsgCtx) : Outcome :=
  if m.fromMe then .ignored
  else if m.senderJid == "status@broadcast" then .ignored
  else if containsSub "@newsletter".toList m.senderJid.toList then .ignored
  else if containsSub "@broadcast".toList m.senderJid.toList then .ignored
  else if m.msgType == "e2e_notification" || m.msgType == "notification_template" then .ignored
  else if m.ignoreGroups && m.isGroup then .ignored
  else if m.isChannel || m.chatType == "channel" then .ignored
  else
    let senderRaw := jsReplaceFirst m.senderJid "@c.us"
    let senderClean := jsReplaceFirst senderRaw "57"
    let senderName := m.chatName.toList.map toLowerCh
    let isShortNumber := decide (senderClean.length ≤ 6)
    let isBlockedName := blockedNames.any (fun name => containsSub name.toList senderName)
    if isShortNumber || isBlockedName || m.botPatternHit then .suppressedAutomatedSender
    else if decide (10 < m.trackerCount) then .suppressedLoop
    else if m.hasMedia || mediaTypes.contains m.msgType then .mediaHandled
    else if jsTrim m.body == "" then .ignored
    else if m.isAdminSender && "!".toList.isPrefixOf (jsTrim m.body).toList then .adminCommand
    else if m.isAuditorSender then .auditorIgnored
    else if m.isEmployeeSender then .employeeIgnored
    else if (detectHandoffIntent (jsTrim m.body) false && decide (6 ≤ m.historyLen))
        || detectHandoffIntent (jsTrim m.body) true then .escalated
    else .aiReply

/-! ### Concrete sample data used by the witness theorems -/

/-- A sample available RETAY catalog item (field values as `loadCatalog`
would derive them). -/
def wProd1 : Product :=
  ⟨"RETAY G19 Negra", "Pistola traumatica Retay", "RETAY", "G19", "RETAY",
   ["retay"], true, "retay g19 negra", "pistola traumatica retay",
   "retay g19 negra pistola traumatica retay retay g19 retay retay"⟩

/-- A sample unavailable EKOL catalog item. -/
def wProd2 : Product :=
  ⟨"EKOL Jackal Dual", "", "EKOL", "Jackal", "EKOL",
   [], false, "ekol jackal dual", "",
   "ekol jackal dual ekol jackal ekol"⟩

def wCatalog : List Product := [wProd1, wProd2]

/-- A well-formed raw catalog entry (all fields present). -/
def wRaw1 : RawProduct :=
  ⟨some "RETAY G19 Negra", some "Pistola traumatica Retay", some "RETAY",
   some "G19", some ["retay"], true⟩

def wEmployee1 : Employee := ⟨1, "Ana", "573000000001"⟩

def wEmployee2 : Employee := ⟨2, "Luis", "573000000002"⟩

def wRoster : List Employee := [wEmployee1, wEmployee2]

/-- Initial router state: fresh cursor, no assignment rows, zero counts. -/
def wState0 : RouterState := ⟨-1, [], [(1, 0), (2, 0)]⟩

/-- A router state in which client `c1` already has an active assignment. -/
def wRowC1 : Row := ⟨"c1", 1, true⟩

def wStateC1 : RouterState := ⟨0, [wRowC1], [(1, 1), (2, 0)]⟩

/-- An inbound message whose sender display name matches the deny-list
and whose text is an explicit human-handoff request. -/
def wMsgBlocked : MsgCtx :=
  { fromMe := false, senderJid := "573001112233@c.us", chatName := "Bancolombia",
    isGroup := false, ignoreGroups := true, isChannel := false, chatType := "chat",
    msgType := "chat", hasMedia := false, body := "quiero un asesor",
    botPatternHit := false, trackerCount := 1, isAdminSender := false,
    isAuditorSender := false, isEmployeeSender := false, historyLen := 8 }

/-- An ordinary client message (no gate hit) with an explicit
human-handoff request and a short history. -/
def wMsgClient : MsgCtx :=
  { fromMe := false, senderJid := "573001112233@c.us", chatName := "Juan Perez",
    isGroup := false, ignoreGroups := true, isChannel := false, chatType := "chat",
    msgType := "chat", hasMedia := false, body := "quiero un asesor",
    botPatternHit := false, trackerCount := 1, isAdminSender := false,
    isAuditorSender := false, isEmployeeSender := false, historyLen := 2 }

/-! ## Theorems -/

/-! ### Generic helper lemmas -/

theorem mem_of_lookup_eq_some {α β : Type} [BEq α] [LawfulBEq α]
    {l : List (α × β)} {a : α} {b : β} (h : l.lookup a = some b) : (a, b) ∈ l := by
  induction l with
  | nil => simp [List.lookup] at h
  | cons p rest ih =>
    obtain ⟨k, v⟩ := p
    rw [List.lookup_cons] at h
    split at h
    · next heq =>
      obtain rfl : v = b := Option.some.inj h
      obtain rfl : a = k := eq_of_beq heq
      exact List.mem_cons_self _ _
    · exact List.mem_cons_of_mem _ (ih h)

/-! ### Character-table lemmas -/

theorem normCh_fixed {c : Char} (h1 : lowerPairs.lookup c = none)
    (h2 : deaccentPairs.lookup c = none) : normCh c = c := by
  simp [normCh, toLowerCh, deaccentCh, h1, h2]

theorem normCh_lookup_none (c : Char) :
    lowerPairs.lookup (normCh c) = none ∧ deaccentPairs.lookup (normCh c) = none := by
  have Hlow : ∀ p ∈ lowerPairs,
      lowerPairs.lookup (deaccentCh p.2) = none
        ∧ deaccentPairs.lookup (deaccentCh p.2) = none := by decide
  have Hde : ∀ p ∈ deaccentPairs,
      lowerPairs.lookup p.2 = none ∧ deaccentPairs.lookup p.2 = none := by decide
  unfold normCh toLowerCh
  cases h : lowerPairs.lookup c with
  | some v =>
    rw [Option.getD_some]
    exact Hlow (c, v) (mem_of_lookup_eq_some h)
  | none =>
    rw [Option.getD_none]
    unfold deaccentCh
    cases h2 : deaccentPairs.lookup c with
    | some w =>
      rw [Option.getD_some]
      exact Hde (c, w) (mem_of_lookup_eq_some h2)
    | none =>
      rw [Option.getD_none]
      exact ⟨h, h2⟩

theorem normCh_idem (c : Char) : normCh (normCh c) = normCh c :=
  normCh_fixed (normCh_lookup_none c).1 (normCh_lookup_none c).2

theorem cleanCh_idem (c : Char) : cleanCh (cleanCh c) = cleanCh c := by
  unfold cleanCh
  by_cases h : searchPunctChars.contains (normCh c) = true
  · rw [if_pos h]; decide
  · rw [if_neg h, normCh_idem, if_neg h]

/-! ### Word-splitting lemmas -/

theorem chunks_ne_nil (s : List Char) : chunks s ≠ [] := by
  induction s with
  | nil => simp [chunks]
  | cons c cs ih =>
    by_cases h : isWsCh c = true
    · simp [chunks, h]
    · cases hcs : chunks cs with
      | nil => exact absurd hcs ih
      | cons w ws => simp [chunks, h, hcs]

theorem mem_chunks_chars {s : List Char} :
    ∀ w ∈ chunks s, ∀ c ∈ w, c ∈ s ∧ isWsCh c = false := by
  induction s with
  | nil => intro w hw; simp [chunks] at hw; subst hw; intro c hc; simp at hc
  | cons c cs ih =>
    intro w hw d hd
    by_cases h : isWsCh c = true
    · simp only [chunks, h, if_true] at hw
      rcases List.mem_cons.1 hw with rfl | hw2
      · simp at hd
      · obtain ⟨hmem, hws⟩ := ih w hw2 d hd
        exact ⟨List.mem_cons_of_mem _ hmem, hws⟩
    · obtain ⟨w0, ws0, hcs⟩ : ∃ w0 ws0, chunks cs = w0 :: ws0 := by
        cases hc : chunks cs with
        | nil => exact absurd hc (chunks_ne_nil cs)
        | cons a b => exact ⟨a, b, rfl⟩
      simp only [chunks, h, if_false, Bool.false_eq_true, hcs] at hw
      rcases List.mem_cons.1 hw with rfl | hw2
      · rcases List.mem_cons.1 hd with rfl | hd2
        · exact ⟨List.mem_cons_self _ _, by simpa using h⟩
        · obtain ⟨hmem, hws⟩ := ih w0 (hcs ▸ List.mem_cons_self _ _) d hd2
          exact ⟨List.mem_cons_of_mem _ hmem, hws⟩
      · obtain ⟨hmem, hws⟩ :=
          ih w (hcs ▸ List.mem_cons_of_mem _ hw2) d hd
        exact ⟨List.mem_cons_of_mem _ hmem, hws⟩

theorem chunks_append_ws {s0 : Char} (hs0 : isWsCh s0 = true) (a b : List Char) :
    chunks (a ++ s0 :: b) = chunks a ++ chunks b := by
  induction a with
  | nil => simp [chunks, hs0]
  | cons c a2 ih =>
    by_cases h : isWsCh c = true
    · simp [chunks, h, ih]
    · obtain ⟨w, ws, hcs⟩ : ∃ w ws, chunks a2 = w :: ws := by
        cases hc : chunks a2 with
        | nil => exact absurd hc (chunks_ne_nil a2)
        | cons x y => exact ⟨x, y, rfl⟩
      simp [chunks, h, ih, hcs]

theorem chunks_no_ws {w : List Char} (h : ∀ c ∈ w, isWsCh c = false) :
    chunks w = [w] := by
  induction w with
  | nil => rfl
  | cons c cs ih =>
    have hc : isWsCh c = false := h c (List.mem_cons_self _ _)
    have ih2 := ih fun d hd => h d (List.mem_cons_of_mem _ hd)
    simp [chunks, hc, ih2]

theorem splitWs_append_ws {s0 : Char} (hs0 : isWsCh s0 = true) (a b : List Char) :
    splitWs (a ++ s0 :: b) = splitWs a ++ splitWs b := by
  unfold splitWs; rw [chunks_append_ws hs0, List.filter_append]

theorem splitWs_no_ws {w : List Char} (hne : w ≠ [])
    (h : ∀ c ∈ w, isWsCh c = false) : splitWs w = [w] := by
  unfold splitWs
  rw [chunks_no_ws h]
  have hemp : w.isEmpty = false := by
    cases w with
    | nil => exact absurd rfl hne
    | cons a l => rfl
  simp [List.filter, hemp]

theorem mem_splitWs {s w : List Char} (hw : w ∈ splitWs s) :
    w ≠ [] ∧ ∀ c ∈ w, c ∈ s ∧ isWsCh c = false := by
  unfold splitWs at hw
  obtain ⟨hw1, hw2⟩ := List.mem_filter.1 hw
  refine ⟨?_, mem_chunks_chars w hw1⟩
  intro hnil
  subst hnil
  simp at hw2

/-! ### Join / dedup lemmas -/

theorem map_joinWordsL (f : Char → Char) (hf : f ' ' = ' ') (l : List (List Char)) :
    (joinWordsL l).map f = joinWordsL (l.map (List.map f)) := by
  induction l with
  | nil => rfl
  | cons w ws ih =>
    cases ws with
    | nil => rfl
    | cons w2 ws2 =>
      show (w ++ ' ' :: joinWordsL (w2 :: ws2)).map f = _
      simp only [List.map_append, List.map_cons, hf, ih]
      rfl

theorem splitWs_joinWordsL (parts : List (List Char)) :
    splitWs (joinWordsL parts) = parts.flatMap splitWs := by
  induction parts with
  | nil => rfl
  | cons w ws ih =>
    cases ws with
    | nil => simp [joinWordsL]
    | cons w2 ws2 =>
      show splitWs (w ++ ' ' :: joinWordsL (w2 :: ws2)) = _
      rw [splitWs_append_ws (by decide), ih]
      simp

theorem mem_foldl_addKw (l : List (List Char)) (acc : List (List Char)) (x : List Char) :
    x ∈ l.foldl addKw acc ↔ x ∈ acc ∨ x ∈ l := by
  induction l generalizing acc with
  | nil => simp
  | cons w ws ih =>
    rw [List.foldl_cons, ih]
    unfold addKw
    by_cases h : w ∈ acc
    · rw [if_pos h]
      have hwa : x = w → x ∈ acc := fun he => he ▸ h
      simp only [List.mem_cons]
      tauto
    · rw [if_neg h]
      simp only [List.mem_append, List.mem_cons, List.mem_singleton]
      tauto

/-! ### Keyword-extraction structure -/

theorem mem_extractKeywordsL {msg k : List Char} :
    k ∈ extractKeywordsL msg ↔
      k ∈ (splitWs (msg.map cleanCh)).filter goodWord
      ∨ ∃ w ∈ (splitWs (msg.map cleanCh)).filter goodWord, k ∈ synOf w := by
  unfold extractKeywordsL
  rw [mem_foldl_addKw]
  simp [List.mem_append, List.mem_flatMap]

theorem word_chars_clean {msg w : List Char} (hw : w ∈ splitWs (msg.map cleanCh)) :
    w ≠ [] ∧ ∀ c ∈ w, cleanCh c = c ∧ isWsCh c = false := by
  obtain ⟨hne, hchars⟩ := mem_splitWs hw
  refine ⟨hne, fun c hc => ?_⟩
  obtain ⟨hcmem, hcws⟩ := hchars c hc
  obtain ⟨c0, _, rfl⟩ := List.mem_map.1 hcmem
  exact ⟨cleanCh_idem c0, hcws⟩

theorem map_cleanCh_fixed {w : List Char} (h : ∀ c ∈ w, cleanCh c = c) :
    w.map cleanCh = w := by
  induction w with
  | nil => rfl
  | cons c cs ih => simp_all

/-! ### Claim C8 — re-normalization of the keyword list -/

theorem extractKeywordsL_word_in_renormalized {msg w : List Char}
    (hw : w ∈ (splitWs (msg.map cleanCh)).filter goodWord) :
    w ∈ (splitWs ((joinWordsL (extractKeywordsL msg)).map cleanCh)).filter goodWord := by
  obtain ⟨hw1, hw2⟩ := List.mem_filter.1 hw
  obtain ⟨hne, hfix⟩ := word_chars_clean hw1
  have hwS : w ∈ extractKeywordsL msg := mem_extractKeywordsL.2 (Or.inl hw)
  refine List.mem_filter.2 ⟨?_, hw2⟩
  rw [map_joinWordsL cleanCh (by decide), splitWs_joinWordsL]
  refine List.mem_flatMap.2 ⟨w.map cleanCh, List.mem_map.2 ⟨w, hwS, rfl⟩, ?_⟩
  rw [map_cleanCh_fixed (fun c hc => (hfix c hc).1),
    splitWs_no_ws hne (fun c hc => (hfix c hc).2)]
  exact List.mem_cons_self _ _

theorem extractKeywordsL_superset {msg : List Char} :
    ∀ k ∈ extractKeywordsL msg, k ∈ extractKeywordsL (joinWordsL (extractKeywordsL msg)) := by
  intro k hk
  rcases mem_extractKeywordsL.1 hk with hkW | ⟨w, hwW, hksyn⟩
  · exact mem_extractKeywordsL.2 (Or.inl (extractKeywordsL_word_in_renormalized hkW))
  · exact mem_extractKeywordsL.2
      (Or.inr ⟨w, extractKeywordsL_word_in_renormalized hwW, hksyn⟩)

theorem joinSpace_extractKeywords_toList (x : String) :
    (joinSpace (extractKeywords x)).toList = joinWordsL (extractKeywordsL x.toList) := by
  show joinWordsL (((extractKeywordsL x.toList).map (fun w => String.mk w)).map
    String.toList) = _
  rw [List.map_map]
  have h : (String.toList ∘ fun w : List Char => String.mk w) = id := rfl
  rw [h, List.map_id]

/-- C8 counterexample: the claimed set equality fails.  For the input
`"traumatica"` the extracted keyword set is
`{traumatica, traumática, trauma, pistola, arma}`; re-normalizing its
space-join re-expands `pistola` and `arma`, whose synonym lists contain
`revolver`, a keyword not in the original set — the synonym table is not
closed, so re-expansion adds new keywords. -/
theorem extractKeywords_not_idempotent :
    "revolver" ∈ extractKeywords (joinSpace (extractKeywords "traumatica"))
    ∧ "revolver" ∉ extractKeywords "traumatica" := by
  exact ⟨by decide, by decide⟩

/-- C8 amended: re-normalizing the space-joined keyword list loses no
keyword — `normalize(normalize(x).join(' '))` is a superset of
`normalize(x)` — but (by the counterexample) it can gain keywords through
synonym re-expansion, so it is not in general the same set. -/
theorem extractKeywords_renormalize_superset (x : String) :
    ∀ k ∈ extractKeywords x, k ∈ extractKeywords (joinSpace (extractKeywords x)) := by
  intro k hk
  obtain ⟨kL, hkL, rfl⟩ := List.mem_map.1 hk
  show String.mk kL ∈ (extractKeywordsL (joinSpace (extractKeywords x)).toList).map
    (fun w => String.mk w)
  refine List.mem_map.2 ⟨kL, ?_, rfl⟩
  rw [joinSpace_extractKeywords_toList]
  exact extractKeywordsL_superset kL hkL

/-- Witness for the amended C8 at a concrete input. -/
theorem extractKeywords_renormalize_superset_witness :
    "trauma" ∈ extractKeywords "traumatica"
    ∧ "trauma" ∈ extractKeywords (joinSpace (extractKeywords "traumatica")) :=
  ⟨by decide, extractKeywords_renormalize_superset "traumatica" "trauma" (by decide)⟩

/-! ### search.js scoring lemmas -/

theorem productScore_pos_of_disponible (p : Product) (kws : List String)
    (h : p.disponible = true) : 0 < productScore p kws := by
  unfold productScore
  rw [h]
  simp

theorem scoredCatalog_countP_score (catalogo : List Product) (kws : List String) :
    (scoredCatalog catalogo kws).countP (fun s => decide (0 < s.score))
      = catalogo.countP (fun p => decide (0 < productScore p kws)) := by
  unfold scoredCatalog
  rw [List.countP_map]
  have h : ((fun s : Scored => decide (0 < s.score)) ∘ fun ip : Nat × Product =>
      (⟨ip.1, ip.2, productScore ip.2 kws⟩ : Scored))
      = ((fun p => decide (0 < productScore p kws)) ∘ Prod.snd) := rfl
  rw [h, ← List.countP_map, List.enum_map_snd]

theorem searchProducts_eq_search (catalogo : List Product) (message : String)
    (maxResults : Nat) (h : extractKeywords message ≠ []) :
    searchProducts catalogo message maxResults
      = SearchResult.search (extractKeywords message)
          ((List.insertionSort rankOrder
            ((scoredCatalog catalogo (extractKeywords message)).filter
              (fun s => decide (0 < s.score)))).take maxResults)
          ((scoredCatalog catalogo (extractKeywords message)).filter
            (fun s => decide (0 < s.score))).length := by
  have hne : (extractKeywords message).isEmpty = false := by
    cases hK : extractKeywords message with
    | nil => exact absurd hK h
    | cons a l => rfl
  simp only [searchProducts, hne, Bool.false_eq_true, if_false]

theorem searchProducts_totalFound_eq (catalogo : List Product) (message : String)
    (maxResults : Nat) (h : extractKeywords message ≠ []) :
    (searchProducts catalogo message maxResults).totalFound
      = catalogo.countP (fun p => decide (0 < productScore p (extractKeywords message))) := by
  rw [searchProducts_eq_search catalogo message maxResults h]
  show ((scoredCatalog catalogo (extractKeywords message)).filter
      (fun s => decide (0 < s.score))).length = _
  rw [← List.countP_eq_length_filter, scoredCatalog_countP_score]

/-! ### Highlight lemmas -/

theorem head_filter_marca {catalogo : List Product} {marca : String} {p : Product}
    (hhead : (catalogo.filter (fun q => q.categoria == marca && q.disponible)).head?
      = some p) :
    p.categoria = marca ∧ p.disponible = true := by
  obtain ⟨ys, hys⟩ := List.head?_eq_some_iff.1 hhead
  have hpf : p ∈ catalogo.filter (fun q => q.categoria == marca && q.disponible) := by
    rw [hys]; exact List.mem_cons_self _ _
  obtain ⟨-, hcond⟩ := List.mem_filter.1 hpf
  have hcond2 : p.categoria = marca ∧ p.disponible = true := by simpa using hcond
  exact hcond2

theorem mem_getHighlightProducts {catalogo : List Product} {p : Product}
    (hp : p ∈ getHighlightProducts catalogo) :
    p.disponible = true ∧ p.categoria ∈ highlightMarcas := by
  unfold getHighlightProducts at hp
  obtain ⟨marca, hm, hhead⟩ := List.mem_filterMap.1 hp
  obtain ⟨hcat, hd⟩ := head_filter_marca hhead
  exact ⟨hd, hcat ▸ hm⟩

theorem pairwise_filterMap_of_keys {α β : Type} (f : α → Option β) (g : β → α)
    (l : List α) (hl : l.Pairwise (fun a b => a ≠ b))
    (hf : ∀ a b, f a = some b → g b = a) :
    (l.filterMap f).Pairwise (fun x y => g x ≠ g y) := by
  induction l with
  | nil => simp
  | cons a rest ih =>
    rw [List.filterMap_cons]
    obtain ⟨ha, hrest⟩ := List.pairwise_cons.1 hl
    cases hfa : f a with
    | none => exact ih hrest
    | some b =>
      refine List.pairwise_cons.2 ⟨?_, ih hrest⟩
      intro y hy
      obtain ⟨a2, ha2, hfa2⟩ := List.mem_filterMap.1 hy
      rw [hf a b hfa, hf a2 y hfa2]
      exact ha a2 ha2

theorem getHighlightProducts_pairwise (catalogo : List Product) :
    (getHighlightProducts catalogo).Pairwise (fun p q => p.categoria ≠ q.categoria) := by
  unfold getHighlightProducts
  exact pairwise_filterMap_of_keys _ (fun p : Product => p.categoria) highlightMarcas
    (by decide) (fun marca p hhead => (head_filter_marca hhead).1)

/-! ### Claim C5 — catalog-load failure behaviour -/

theorem pushCategoria_ok (categoria : String) (ps : List RawProduct)
    (acc : List Product) (h : ∀ p ∈ ps, p.titulo.isSome = true) :
    pushCategoria categoria ps acc
      = (acc ++ ps.map (fun p => mkCatalogProduct categoria p (p.titulo.getD "")), false) := by
  induction ps generalizing acc with
  | nil => simp [pushCategoria]
  | cons p rest ih =>
    obtain ⟨t, ht⟩ := Option.isSome_iff_exists.1 (h p (List.mem_cons_self _ _))
    rw [pushCategoria, ht]
    dsimp only
    rw [ih _ (fun q hq => h q (List.mem_cons_of_mem _ hq))]
    simp [ht]

theorem buildCategorias_ok (cats : List (String × List RawProduct))
    (acc : List Product) (h : ∀ e ∈ cats, ∀ p ∈ e.2, p.titulo.isSome = true) :
    buildCategorias cats acc
      = (acc ++ cats.flatMap
          (fun e => e.2.map (fun p => mkCatalogProduct e.1 p (p.titulo.getD ""))), false) := by
  induction cats generalizing acc with
  | nil => simp [buildCategorias]
  | cons e rest ih =>
    rw [buildCategorias, pushCategoria_ok e.1 e.2 acc (h e (List.mem_cons_self _ _))]
    dsimp only
    rw [ih _ (fun e2 he2 => h e2 (List.mem_cons_of_mem _ he2))]
    simp

/-- C5 counterexample: the claim fails on a malformed-but-parseable
source.  With a previously loaded one-item catalog and a source that
parses to a JSON object without a `categorias` key, `loadCatalog`
swallows the `TypeError` from `Object.entries(undefined)` — but only
after it has already executed `catalogo = []`, so the previous catalog is
clobbered rather than left in place. -/
theorem loadCatalog_clobbers_previous :
    loadCatalog (LoadSource.parsed none) [wProd1] = []
    ∧ loadCatalog (LoadSource.parsed none) [wProd1] ≠ [wProd1] := by
  exact ⟨rfl, by decide⟩

/-- C5 amended: no exception ever propagates to the caller (the whole
body is inside `try`/`catch`, which is why `loadCatalog` is a total
function of the source here), and the previous catalog is preserved
exactly when the failure happens in the read/parse step — a document
that parses but lacks `categorias` resets the catalog to empty, and a
well-formed document replaces it with the parsed items. -/
theorem loadCatalog_failure_spec :
    (∀ old, loadCatalog LoadSource.unreadable old = old)
    ∧ (∀ old, loadCatalog (LoadSource.parsed none) old = [])
    ∧ ∀ (cats : List (String × List RawProduct)) (old : List Product),
        (∀ e ∈ cats, ∀ p ∈ e.2, p.titulo.isSome = true) →
        loadCatalog (LoadSource.parsed (some cats)) old
          = cats.flatMap
              (fun e => e.2.map (fun p => mkCatalogProduct e.1 p (p.titulo.getD ""))) := by
  refine ⟨fun old => rfl, fun old => rfl, fun cats old h => ?_⟩
  show (buildCategorias cats []).1 = _
  rw [buildCategorias_ok cats [] h]
  rfl

/-- Witness for the amended C5 at concrete sources. -/
theorem loadCatalog_failure_spec_witness :
    loadCatalog LoadSource.unreadable [wProd1] = [wProd1]
    ∧ loadCatalog (LoadSource.parsed none) [wProd1] = []
    ∧ loadCatalog (LoadSource.parsed (some [("RETAY", [wRaw1])])) [wProd2]
        = [("RETAY", [wRaw1])].flatMap
            (fun e => e.2.map (fun p => mkCatalogProduct e.1 p (p.titulo.getD ""))) :=
  ⟨loadCatalog_failure_spec.1 [wProd1], loadCatalog_failure_spec.2.1 [wProd1],
   loadCatalog_failure_spec.2.2 [("RETAY", [wRaw1])] [wProd2] (by decide)⟩

/-! ### Claim C9 — scoring is monotone in the keyword list -/

/-- C9: for every catalog item and every keyword list, appending one more
keyword never decreases the item's score (each keyword contributes only
non-negative increments, and the availability bonus is unchanged). -/
theorem productScore_append_keyword_mono (p : Product) (kws : List String) (k : String) :
    productScore p kws ≤ productScore p (kws ++ [k]) := by
  unfold productScore
  rw [List.map_append, List.sum_append]
  simp

/-! ### Claim C6 — search-path result shape -/

/-- C6: for every catalog, query with non-empty extracted keywords, and
`maxResults`: the search returns at most `maxResults` items, every
returned item's score is strictly positive, the returned list is ordered
by strictly descending score with ties in catalog order (`rankOrder` over
the catalog-position tag), each returned entry really is the catalog item
at its tagged position with its computed score, and `totalFound` is the
number of catalog items with positive score before truncation. -/
theorem searchProducts_search_spec (catalogo : List Product) (message : String)
    (maxResults : Nat) (h : extractKeywords message ≠ []) :
    (searchProducts catalogo message maxResults).strategy = "search"
    ∧ (searchProducts catalogo message maxResults).scoredItems.length ≤ maxResults
    ∧ (∀ s ∈ (searchProducts catalogo message maxResults).scoredItems, 0 < s.score)
    ∧ (searchProducts catalogo message maxResults).scoredItems.Pairwise rankOrder
    ∧ (∀ s ∈ (searchProducts catalogo message maxResults).scoredItems,
        catalogo[s.idx]? = some s.item
        ∧ s.score = productScore s.item (extractKeywords message))
    ∧ (searchProducts catalogo message maxResults).totalFound
        = catalogo.countP (fun p => decide (0 < productScore p (extractKeywords message))) := by
  have hsp := searchProducts_eq_search catalogo message maxResults h
  have htf := searchProducts_totalFound_eq catalogo message maxResults h
  rw [hsp] at htf ⊢
  refine ⟨rfl, ?_, ?_, ?_, ?_, htf⟩
  · show (List.take maxResults _).length ≤ maxResults
    rw [List.length_take]
    exact min_le_left _ _
  · intro s hs
    have hs1 : s ∈ List.insertionSort rankOrder _ := List.mem_of_mem_take hs
    rw [List.mem_insertionSort] at hs1
    exact of_decide_eq_true (List.mem_filter.1 hs1).2
  · exact List.Pairwise.sublist (List.take_sublist _ _)
      (List.sorted_insertionSort rankOrder _)
  · intro s hs
    have hs1 : s ∈ List.insertionSort rankOrder _ := List.mem_of_mem_take hs
    rw [List.mem_insertionSort] at hs1
    have hs2 := (List.mem_filter.1 hs1).1
    unfold scoredCatalog at hs2
    obtain ⟨ip, hip, heq⟩ := List.mem_map.1 hs2
    have hget := List.mem_enum_iff_getElem?.1 hip
    rw [← heq]
    exact ⟨hget, rfl⟩

/-- Witness for C6 at a concrete catalog and query. -/
theorem searchProducts_search_spec_witness :
    extractKeywords "retay negra" ≠ []
    ∧ ((searchProducts wCatalog "retay negra" 2).strategy = "search"
      ∧ (searchProducts wCatalog "retay negra" 2).scoredItems.length ≤ 2
      ∧ (∀ s ∈ (searchProducts wCatalog "retay negra" 2).scoredItems, 0 < s.score)
      ∧ (searchProducts wCatalog "retay negra" 2).scoredItems.Pairwise rankOrder
      ∧ (∀ s ∈ (searchProducts wCatalog "retay negra" 2).scoredItems,
          wCatalog[s.idx]? = some s.item
          ∧ s.score = productScore s.item (extractKeywords "retay negra"))
      ∧ (searchProducts wCatalog "retay negra" 2).totalFound
          = wCatalog.countP
              (fun p => decide (0 < productScore p (extractKeywords "retay negra")))) :=
  ⟨by decide, searchProducts_search_spec wCatalog "retay negra" 2 (by decide)⟩

/-! ### Claim C7 — empty-keyword fallback -/

/-- C7: for every query whose normalization yields no keywords, the search
returns the `'highlights'` strategy with `totalFound = 0` and the curated
fallback: every fallback item is available, items are one per brand from
the fixed brand list, so categories are pairwise distinct. -/
theorem searchProducts_highlights_spec (catalogo : List Product) (message : String)
    (maxResults : Nat) (h : extractKeywords message = []) :
    searchProducts catalogo message maxResults
      = SearchResult.highlights [] (getHighlightProducts catalogo) 0
    ∧ (searchProducts catalogo message maxResults).strategy = "highlights"
    ∧ (searchProducts catalogo message maxResults).totalFound = 0
    ∧ (∀ p ∈ getHighlightProducts catalogo,
        p.disponible = true ∧ p.categoria ∈ highlightMarcas)
    ∧ (getHighlightProducts catalogo).Pairwise (fun p q => p.categoria ≠ q.categoria) := by
  have hq : searchProducts catalogo message maxResults
      = SearchResult.highlights [] (getHighlightProducts catalogo) 0 := by
    simp [searchProducts, h]
  refine ⟨hq, ?_, ?_, ?_, getHighlightProducts_pairwise catalogo⟩
  · rw [hq]; rfl
  · rw [hq]; rfl
  · exact fun p hp => mem_getHighlightProducts hp

/-- Witness for C7 at a concrete catalog and an all-stop-words query. -/
theorem searchProducts_highlights_spec_witness :
    extractKeywords "hola" = []
    ∧ (searchProducts wCatalog "hola" 6
        = SearchResult.highlights [] (getHighlightProducts wCatalog) 0
      ∧ (searchProducts wCatalog "hola" 6).strategy = "highlights"
      ∧ (searchProducts wCatalog "hola" 6).totalFound = 0
      ∧ (∀ p ∈ getHighlightProducts wCatalog,
          p.disponible = true ∧ p.categoria ∈ highlightMarcas)
      ∧ (getHighlightProducts wCatalog).Pairwise (fun p q => p.categoria ≠ q.categoria)) :=
  ⟨by decide, searchProducts_highlights_spec wCatalog "hola" 6 (by decide)⟩

/-! ### Claim C10 — availability bonus floor on totalFound -/

/-- C10 (implicit): the `+1` availability bonus is added independently of
any keyword match, so on the search path every available catalog item has
a strictly positive score and `totalFound` is at least the number of
available items. -/
theorem searchProducts_available_lower_bound (catalogo : List Product) (message : String)
    (maxResults : Nat) (h : extractKeywords message ≠ []) :
    catalogo.countP (fun p => p.disponible)
      ≤ (searchProducts catalogo message maxResults).totalFound
    ∧ ∀ p ∈ catalogo, p.disponible = true →
        0 < productScore p (extractKeywords message) := by
  constructor
  · rw [searchProducts_totalFound_eq catalogo message maxResults h]
    refine List.countP_mono_left ?_
    intro p _ hp
    exact decide_eq_true (productScore_pos_of_disponible p _ hp)
  · exact fun p _ hp => productScore_pos_of_disponible p _ hp

/-- Witness for C10 at a concrete catalog (one available item, keyword
matching nothing in the catalog). -/
theorem searchProducts_available_lower_bound_witness :
    extractKeywords "municion" ≠ []
    ∧ (wCatalog.countP (fun p => p.disponible)
        ≤ (searchProducts wCatalog "municion" 6).totalFound
      ∧ ∀ p ∈ wCatalog, p.disponible = true →
          0 < productScore p (extractKeywords "municion")) :=
  ⟨by decide, searchProducts_available_lower_bound wCatalog "municion" 6 (by decide)⟩

/-! ### Round-robin counting lemmas -/

theorem countP_range_mod (K r : Nat) (hK : 0 < K) (hr : r < K) :
    ∀ N, (List.range N).countP (fun n => decide (n % K = r)) = (N + K - 1 - r) / K := by
  intro N
  induction N with
  | zero =>
    simp only [List.range_zero, List.countP_nil]
    exact (Nat.div_eq_of_lt (by omega)).symm
  | succ n ih =>
    rw [List.range_succ, List.countP_append, ih]
    have hsing : (List.countP (fun n => decide (n % K = r)) [n])
        = if n % K = r then 1 else 0 := by
      rw [List.countP_cons]
      simp
    rw [hsing]
    have hm : n % K < K := Nat.mod_lt _ hK
    obtain ⟨q, hq⟩ : ∃ q, n = K * q + n % K :=
      ⟨n / K, (Nat.div_add_mod n K).symm⟩
    by_cases h : n % K = r
    · rw [if_pos h]
      rw [h] at hq
      have hx : K * (q + 1) = K * q + K := by ring
      have e1 : n + K - 1 - r = K * q + (K - 1) := by omega
      have e2 : n + 1 + K - 1 - r = K * (q + 1) + 0 := by omega
      rw [e1, e2, Nat.mul_add_div hK, Nat.mul_add_div hK]
      have d1 : (K - 1) / K = 0 := Nat.div_eq_of_lt (by omega)
      have d2 : (0 : Nat) / K = 0 := Nat.zero_div K
      omega
    · rw [if_neg h]
      by_cases hlt : n % K < r
      · have e1 : n + K - 1 - r = K * q + (n % K + K - 1 - r) := by omega
        have e2 : n + 1 + K - 1 - r = K * q + (n % K + K - r) := by omega
        rw [e1, e2, Nat.mul_add_div hK, Nat.mul_add_div hK]
        have d1 : (n % K + K - 1 - r) / K = 0 := Nat.div_eq_of_lt (by omega)
        have d2 : (n % K + K - r) / K = 0 := Nat.div_eq_of_lt (by omega)
        omega
      · have hgt : r < n % K := by omega
        have hx : K * (q + 1) = K * q + K := by ring
        have e1 : n + K - 1 - r = K * (q + 1) + (n % K - 1 - r) := by omega
        have e2 : n + 1 + K - 1 - r = K * (q + 1) + (n % K - r) := by omega
        rw [e1, e2, Nat.mul_add_div hK, Nat.mul_add_div hK]
        have d1 : (n % K - 1 - r) / K = 0 := Nat.div_eq_of_lt (by omega)
        have d2 : (n % K - r) / K = 0 := Nat.div_eq_of_lt (by omega)
        omega

theorem addmod_eq_iff (K a j : Nat) (hK : 0 < K) (hj : j < K) (n : Nat) :
    (a + n) % K = j ↔ n % K = (j + (K - a % K)) % K := by
  have hb : a % K < K := Nat.mod_lt _ hK
  have hm : n % K < K := Nat.mod_lt _ hK
  have h1 : (a + n) % K = (a % K + n % K) % K := by rw [Nat.add_mod]
  have h2 : (a % K + n % K) % K
      = if a % K + n % K < K then a % K + n % K else a % K + n % K - K := by
    split_ifs with h
    · exact Nat.mod_eq_of_lt h
    · rw [Nat.mod_eq_sub_mod (by omega)]
      exact Nat.mod_eq_of_lt (by omega)
  have h3 : (j + (K - a % K)) % K
      = if j + (K - a % K) < K then j + (K - a % K) else j + (K - a % K) - K := by
    split_ifs with h
    · exact Nat.mod_eq_of_lt h
    · rw [Nat.mod_eq_sub_mod (by omega)]
      exact Nat.mod_eq_of_lt (by omega)
  rw [h1, h2, h3]
  split_ifs <;> omega

theorem countP_range_addmod_floor_ceil (N K a j : Nat) (hK : 0 < K) (hj : j < K) :
    (List.range N).countP (fun n => decide ((a + n) % K = j)) = N / K
    ∨ (List.range N).countP (fun n => decide ((a + n) % K = j)) = (N + K - 1) / K := by
  have hcong : (List.range N).countP (fun n => decide ((a + n) % K = j))
      = (List.range N).countP (fun n => decide (n % K = (j + (K - a % K)) % K)) := by
    refine List.countP_congr ?_
    intro n _
    simp only [decide_eq_true_eq]
    exact addmod_eq_iff K a j hK hj n
  rw [hcong, countP_range_mod K _ hK (Nat.mod_lt _ hK) N]
  have hr : (j + (K - a % K)) % K < K := Nat.mod_lt _ hK
  have h1 : N / K ≤ (N + K - 1 - (j + (K - a % K)) % K) / K :=
    Nat.div_le_div_right (by omega)
  have h2 : (N + K - 1 - (j + (K - a % K)) % K) / K ≤ (N + K - 1) / K :=
    Nat.div_le_div_right (by omega)
  have h3 : (N + K - 1) / K ≤ N / K + 1 := by
    calc (N + K - 1) / K ≤ (N + K) / K := Nat.div_le_div_right (by omega)
    _ = N / K + 1 := Nat.add_div_right _ hK
  omega

/-! ### Router single-step lemmas -/

theorem filter_active_eq_nil {rows : List Row} {p : String}
    (h : getActiveAssignment rows p = none) :
    rows.filter (fun r => r.client == p && r.active) = [] := by
  unfold getActiveAssignment at h
  exact List.getLast?_eq_none_iff.1 h

theorem deactivate_map_eq_self {rows : List Row} {p : String}
    (h : getActiveAssignment rows p = none) :
    rows.map (fun r =>
      if r.client == p && r.active then { r with active := false } else r) = rows := by
  have hall := List.filter_eq_nil_iff.1 (filter_active_eq_nil h)
  have h2 : rows.map (fun r =>
      if r.client == p && r.active then { r with active := false } else r)
      = rows.map id :=
    List.map_congr_left fun r hr => by rw [if_neg (hall r hr)]; rfl
  rw [h2, List.map_id]

theorem getActiveAssignment_append_self {rows : List Row} {p : String} {eid : Nat}
    (h : getActiveAssignment rows p = none) :
    getActiveAssignment (rows ++ [⟨p, eid, true⟩]) p = some ⟨p, eid, true⟩ := by
  unfold getActiveAssignment
  rw [List.filter_append, filter_active_eq_nil h, List.nil_append]
  simp [List.filter]

theorem getActiveAssignment_append_other {rows : List Row} {p q : String} {eid : Nat}
    (hne : p ≠ q) :
    getActiveAssignment (rows ++ [⟨p, eid, true⟩]) q = getActiveAssignment rows q := by
  unfold getActiveAssignment
  rw [List.filter_append]
  have hf : List.filter (fun r => r.client == q && r.active) [(⟨p, eid, true⟩ : Row)]
      = [] := by
    have hbe : (p == q) = false := beq_eq_false_iff_ne.2 hne
    simp [List.filter, hbe]
  rw [hf, List.append_nil]

theorem assignClient_step {emps : List Employee} {s : RouterState} {p : String}
    (hK : emps.length ≠ 0) (hfree : getActiveAssignment s.rows p = none) :
    assignClient emps s p
      = (some ⟨p, (emps.getD ((s.lastAssignedIndex + 1) % (emps.length : Int)).toNat
            defaultEmployee).id, true⟩,
         { lastAssignedIndex := (s.lastAssignedIndex + 1) % (emps.length : Int),
           rows := s.rows ++ [⟨p,
             (emps.getD ((s.lastAssignedIndex + 1) % (emps.length : Int)).toNat
               defaultEmployee).id, true⟩],
           counts := s.counts.map fun pc =>
             if pc.1 = (emps.getD ((s.lastAssignedIndex + 1) % (emps.length : Int)).toNat
                 defaultEmployee).id
             then (pc.1, pc.2 + 1) else pc }) := by
  unfold assignClient
  rw [hfree]
  dsimp only
  rw [if_neg hK]
  unfold createAssignmentState
  dsimp only
  rw [deactivate_map_eq_self hfree, getActiveAssignment_append_self hfree]

theorem zipWith_congr_fun {α β γ : Type} {f g : α → β → γ} (h : ∀ a b, f a b = g a b)
    (l1 : List α) (l2 : List β) : List.zipWith f l1 l2 = List.zipWith g l1 l2 := by
  have he : f = g := funext fun a => funext fun b => h a b
  rw [he]

theorem countP_zipWith_left {α β γ : Type} (f : α → β → γ) (pred : γ → Bool)
    (q : α → Bool) (h : ∀ a b, pred (f a b) = q a) :
    ∀ (l1 : List α) (l2 : List β), l1.length = l2.length →
      (List.zipWith f l1 l2).countP pred = l1.countP q := by
  intro l1
  induction l1 with
  | nil => intro l2 _; rfl
  | cons a l1 ih =>
    intro l2 hlen
    cases l2 with
    | nil => simp at hlen
    | cons b l2 =>
      rw [List.zipWith_cons_cons, List.countP_cons, List.countP_cons, h a b,
        ih l2 (by simpa using hlen)]

theorem getD_id_inj {emps : List Employee} (hids : (emps.map Employee.id).Nodup)
    {i j : Nat} (hi : i < emps.length) (hj : j < emps.length) :
    (emps.getD i defaultEmployee).id = (emps.getD j defaultEmployee).id ↔ i = j := by
  rw [List.getD_eq_getElem _ _ hi, List.getD_eq_getElem _ _ hj]
  have hi2 : i < (emps.map Employee.id).length := by rw [List.length_map]; exact hi
  have hj2 : j < (emps.map Employee.id).length := by rw [List.length_map]; exact hj
  have h1 : emps[i].id = (emps.map Employee.id)[i] := (List.getElem_map _).symm
  have h2 : emps[j].id = (emps.map Employee.id)[j] := (List.getElem_map _).symm
  rw [h1, h2]
  exact List.Nodup.getElem_inj_iff hids

/-! ### Claim C1 — round-robin trace and fairness -/

theorem runAssign_trace (emps : List Employee) (hK : emps ≠ []) :
    ∀ (phones : List String) (s : RouterState),
      -1 ≤ s.lastAssignedIndex → phones.Nodup →
      (∀ p ∈ phones, getActiveAssignment s.rows p = none) →
      (runAssign emps s phones).1
        = List.zipWith
            (fun n p => some (⟨p,
              (emps.getD (((s.lastAssignedIndex + 1).toNat + n) % emps.length)
                defaultEmployee).id, true⟩ : Row))
            (List.range phones.length) phones := by
  intro phones
  induction phones with
  | nil => intro s _ _ _; rfl
  | cons p ps ih =>
    intro s hcur hnd hfree
    have hK0 : emps.length ≠ 0 := fun h => hK (List.length_eq_zero.1 h)
    have hKpos : 0 < emps.length := Nat.pos_of_ne_zero hK0
    have hKposI : (0 : Int) < (emps.length : Int) := by exact_mod_cast hKpos
    have hstep := assignClient_step hK0 (hfree p (List.mem_cons_self _ _))
    have hnn : (0 : Int) ≤ (s.lastAssignedIndex + 1) % (emps.length : Int) :=
      Int.emod_nonneg _ (by omega)
    have htoNat : ((s.lastAssignedIndex + 1) % (emps.length : Int)).toNat
        = (s.lastAssignedIndex + 1).toNat % emps.length := by
      obtain ⟨n, hn⟩ :=
        Int.eq_ofNat_of_zero_le (show (0 : Int) ≤ s.lastAssignedIndex + 1 by omega)
      rw [hn, ← Int.natCast_mod, Int.toNat_natCast, Int.toNat_natCast]
    show (assignClient emps s p).1
        :: (runAssign emps (assignClient emps s p).2 ps).1 = _
    rw [hstep]
    have hfree2 : ∀ q ∈ ps,
        getActiveAssignment (s.rows ++ [(⟨p,
          (emps.getD ((s.lastAssignedIndex + 1) % (emps.length : Int)).toNat
            defaultEmployee).id, true⟩ : Row)]) q = none := by
      intro q hq
      have hpq : p ≠ q := fun he => (List.nodup_cons.1 hnd).1 (he ▸ hq)
      rw [getActiveAssignment_append_other hpq]
      exact hfree q (List.mem_cons_of_mem _ hq)
    have ih2 := ih
      { lastAssignedIndex := (s.lastAssignedIndex + 1) % (emps.length : Int)
        rows := s.rows ++ [⟨p,
          (emps.getD ((s.lastAssignedIndex + 1) % (emps.length : Int)).toNat
            defaultEmployee).id, true⟩]
        counts := s.counts.map fun pc =>
          if pc.1 = (emps.getD ((s.lastAssignedIndex + 1) % (emps.length : Int)).toNat
              defaultEmployee).id
          then (pc.1, pc.2 + 1) else pc }
      (show -1 ≤ (s.lastAssignedIndex + 1) % (emps.length : Int) by omega)
      (List.Nodup.of_cons hnd) hfree2
    dsimp only at ih2
    rw [ih2]
    show _ = List.zipWith _ (List.range (ps.length + 1)) (p :: ps)
    rw [List.range_succ_eq_map, List.zipWith_cons_cons, List.zipWith_map_left]
    congr 1
    · rw [htoNat]
      simp
    · refine zipWith_congr_fun (fun n q => ?_) _ _
      have hidx : (((s.lastAssignedIndex + 1) % (emps.length : Int) + 1).toNat + n)
            % emps.length
          = ((s.lastAssignedIndex + 1).toNat + Nat.succ n) % emps.length := by
        have h1 : ((s.lastAssignedIndex + 1) % (emps.length : Int) + 1).toNat
            = ((s.lastAssignedIndex + 1) % (emps.length : Int)).toNat + 1 := by omega
        rw [h1, htoNat, Nat.add_assoc, Nat.mod_add_mod]
        have h2 : (s.lastAssignedIndex + 1).toNat + (1 + n)
            = (s.lastAssignedIndex + 1).toNat + Nat.succ n := by omega
        rw [h2]
      rw [hidx]

/-- C1: with a fixed non-empty roster (distinct agent ids), a cursor in
its reachable range, and a sequence of distinct clients none of whom has
an active assignment, `assignClient` (1) assigns the `n`-th client to the
agent at roster position `(cursor₀ + 1 + n) mod K` — the selection cycles
through the roster in its fixed order starting just after the initial
cursor — and (2) every agent receives exactly `⌊N/K⌋` or `⌈N/K⌉`
assignments, where `⌈N/K⌉ = (N + K - 1) / K`. -/
theorem assignClient_round_robin (emps : List Employee) (phones : List String)
    (s : RouterState) (hK : emps ≠ []) (hids : (emps.map Employee.id).Nodup)
    (hcur : -1 ≤ s.lastAssignedIndex) (hnd : phones.Nodup)
    (hfree : ∀ p ∈ phones, getActiveAssignment s.rows p = none) :
    (runAssign emps s phones).1
      = List.zipWith
          (fun n p => some (⟨p,
            (emps.getD (((s.lastAssignedIndex + 1).toNat + n) % emps.length)
              defaultEmployee).id, true⟩ : Row))
          (List.range phones.length) phones
    ∧ ∀ j < emps.length,
        ((runAssign emps s phones).1.filterMap id).countP
            (fun r => decide (r.employee_id = (emps.getD j defaultEmployee).id))
          = phones.length / emps.length
        ∨ ((runAssign emps s phones).1.filterMap id).countP
            (fun r => decide (r.employee_id = (emps.getD j defaultEmployee).id))
          = (phones.length + emps.length - 1) / emps.length := by
  have htrace := runAssign_trace emps hK phones s hcur hnd hfree
  refine ⟨htrace, ?_⟩
  intro j hj
  have hKpos : 0 < emps.length := List.length_pos.2 hK
  rw [htrace]
  have hrw : (List.zipWith
      (fun n p => some (⟨p,
        (emps.getD (((s.lastAssignedIndex + 1).toNat + n) % emps.length)
          defaultEmployee).id, true⟩ : Row))
      (List.range phones.length) phones).filterMap id
      = List.zipWith
          (fun n p => (⟨p,
            (emps.getD (((s.lastAssignedIndex + 1).toNat + n) % emps.length)
              defaultEmployee).id, true⟩ : Row))
          (List.range phones.length) phones := by
    rw [← List.map_zipWith]
    rw [List.filterMap_map]
    have hcomp : (id ∘ (some : Row → Option Row)) = some := rfl
    rw [hcomp, List.filterMap_some]
  rw [hrw]
  have hcount := countP_zipWith_left
    (fun n p => (⟨p,
      (emps.getD (((s.lastAssignedIndex + 1).toNat + n) % emps.length)
        defaultEmployee).id, true⟩ : Row))
    (fun r => decide (r.employee_id = (emps.getD j defaultEmployee).id))
    (fun n => decide (((s.lastAssignedIndex + 1).toNat + n) % emps.length = j))
    (fun n q => decide_eq_decide.2
      (getD_id_inj hids (Nat.mod_lt _ hKpos) hj))
    (List.range phones.length) phones (by rw [List.length_range])
  rw [hcount]
  have := countP_range_addmod_floor_ceil phones.length emps.length
    (s.lastAssignedIndex + 1).toNat j hKpos hj
  simpa using this

/-- Witness for C1: roster of two agents, cursor at its initial `-1`,
three fresh distinct clients. -/
theorem assignClient_round_robin_witness :
    (wRoster ≠ [] ∧ (wRoster.map Employee.id).Nodup
      ∧ -1 ≤ wState0.lastAssignedIndex ∧ (["c1", "c2", "c3"] : List String).Nodup
      ∧ ∀ p ∈ (["c1", "c2", "c3"] : List String),
          getActiveAssignment wState0.rows p = none)
    ∧ ((runAssign wRoster wState0 ["c1", "c2", "c3"]).1
        = List.zipWith
            (fun n p => some (⟨p,
              (wRoster.getD (((wState0.lastAssignedIndex + 1).toNat + n) % wRoster.length)
                defaultEmployee).id, true⟩ : Row))
            (List.range (["c1", "c2", "c3"] : List String).length) ["c1", "c2", "c3"]
      ∧ ∀ j < wRoster.length,
          ((runAssign wRoster wState0 ["c1", "c2", "c3"]).1.filterMap id).countP
              (fun r => decide (r.employee_id = (wRoster.getD j defaultEmployee).id))
            = (["c1", "c2", "c3"] : List String).length / wRoster.length
          ∨ ((runAssign wRoster wState0 ["c1", "c2", "c3"]).1.filterMap id).countP
              (fun r => decide (r.employee_id = (wRoster.getD j defaultEmployee).id))
            = ((["c1", "c2", "c3"] : List String).length + wRoster.length - 1)
                / wRoster.length) :=
  ⟨⟨by decide, by decide, by decide, by decide, by decide⟩,
   assignClient_round_robin wRoster ["c1", "c2", "c3"] wState0 (by decide) (by decide)
     (by decide) (by decide) (by decide)⟩

/-! ### Claim C2 — sticky routing -/

/-- C2: if a client already has an active assignment, a further
`assignClient` call returns exactly that assignment and is a no-op on the
state: no new assignment row, no lifetime-count increment, and the
rotation cursor does not advance. -/
theorem assignClient_sticky (emps : List Employee) (s : RouterState)
    (clientPhone : String) (a : Row)
    (h : getActiveAssignment s.rows clientPhone = some a) :
    assignClient emps s clientPhone = (some a, s)
    ∧ (assignClient emps s clientPhone).2.rows = s.rows
    ∧ (assignClient emps s clientPhone).2.counts = s.counts
    ∧ (assignClient emps s clientPhone).2.lastAssignedIndex = s.lastAssignedIndex := by
  have he : assignClient emps s clientPhone = (some a, s) := by
    unfold assignClient
    rw [h]
  exact ⟨he, by rw [he], by rw [he], by rw [he]⟩

/-- Witness for C2: a concrete state in which client `c1` is already
assigned. -/
theorem assignClient_sticky_witness :
    getActiveAssignment wStateC1.rows "c1" = some wRowC1
    ∧ (assignClient wRoster wStateC1 "c1" = (some wRowC1, wStateC1)
      ∧ (assignClient wRoster wStateC1 "c1").2.rows = wStateC1.rows
      ∧ (assignClient wRoster wStateC1 "c1").2.counts = wStateC1.counts
      ∧ (assignClient wRoster wStateC1 "c1").2.lastAssignedIndex
          = wStateC1.lastAssignedIndex) :=
  ⟨by decide, assignClient_sticky wRoster wStateC1 "c1" wRowC1 (by decide)⟩

/-! ### Claim C3 — gate ordering: suppression before handoff detection -/

/-- C3: an inbound client message (none of the early ignore conditions
applies) whose sender display name matches the deny-list is disposed of
as `suppressedAutomatedSender` — even when the text also contains an
explicit human-handoff phrase — and is never escalated: the anti-bot
filter runs before `detectHandoffIntent` and short-circuits it. -/
theorem classify_blocked_sender_suppressed (m : MsgCtx)
    (h1 : m.fromMe = false)
    (h2 : (m.senderJid == "status@broadcast") = false)
    (h3 : containsSub "@newsletter".toList m.senderJid.toList = false)
    (h4 : containsSub "@broadcast".toList m.senderJid.toList = false)
    (h5 : (m.msgType == "e2e_notification" || m.msgType == "notification_template")
      = false)
    (h6 : (m.ignoreGroups && m.isGroup) = false)
    (h7 : (m.isChannel || m.chatType == "channel") = false)
    (hname : blockedNames.any
      (fun name => containsSub name.toList (m.chatName.toList.map toLowerCh)) = true)
    (hhuman : detectHandoffIntent (jsTrim m.body) true = true) :
    classify m = Outcome.suppressedAutomatedSender
    ∧ classify m ≠ Outcome.escalated := by
  have hc : classify m = Outcome.suppressedAutomatedSender := by
    unfold classify
    rw [h1, h2, h3, h4, h5, h6, h7]
    dsimp only
    rw [hname]
    simp
  exact ⟨hc, by rw [hc]; intro hcontra; exact Outcome.noConfusion hcontra⟩

/-- Witness for C3: a message from a chat named `Bancolombia` whose text
is an explicit human-handoff request. -/
theorem classify_blocked_sender_suppressed_witness :
    detectHandoffIntent (jsTrim wMsgBlocked.body) true = true
    ∧ blockedNames.any (fun name =>
        containsSub name.toList (wMsgBlocked.chatName.toList.map toLowerCh)) = true
    ∧ (classify wMsgBlocked = Outcome.suppressedAutomatedSender
      ∧ classify wMsgBlocked ≠ Outcome.escalated) :=
  ⟨by decide, by decide,
   classify_blocked_sender_suppressed wMsgBlocked (by decide) (by decide) (by decide)
     (by decide) (by decide) (by decide) (by decide) (by decide) (by decide)⟩

/-! ### Claim C4 — escalation condition -/

/-- C4: for a message that reaches the client flow (every earlier gate
misses), the handler escalates if and only if the text contains a
purchase-confirmation phrase and the stored history at the decision point
has length at least 6, or the text contains an explicit human-handoff
phrase (which escalates with no history minimum).  This is the Boolean
identity `((buy ∨ human) ∧ hist) ∨ human ↔ (buy ∧ hist) ∨ human` applied
to `wantsHuman && hasEnoughHistory || wantsHumanExplicit`. -/
theorem classify_escalation_iff (m : MsgCtx)
    (h1 : m.fromMe = false)
    (h2 : (m.senderJid == "status@broadcast") = false)
    (h3 : containsSub "@newsletter".toList m.senderJid.toList = false)
    (h4 : containsSub "@broadcast".toList m.senderJid.toList = false)
    (h5 : (m.msgType == "e2e_notification" || m.msgType == "notification_template")
      = false)
    (h6 : (m.ignoreGroups && m.isGroup) = false)
    (h7 : (m.isChannel || m.chatType == "channel") = false)
    (hshort : decide
      ((jsReplaceFirst (jsReplaceFirst m.senderJid "@c.us") "57").length ≤ 6) = false)
    (hname : blockedNames.any
      (fun name => containsSub name.toList (m.chatName.toList.map toLowerCh)) = false)
    (hbot : m.botPatternHit = false)
    (htracker : decide (10 < m.trackerCount) = false)
    (hmedia : (m.hasMedia || mediaTypes.contains m.msgType) = false)
    (hbody : (jsTrim m.body == "") = false)
    (hadmin : (m.isAdminSender && "!".toList.isPrefixOf (jsTrim m.body).toList) = false)
    (haud : m.isAuditorSender = false)
    (hemp : m.isEmployeeSender = false) :
    classify m = Outcome.escalated
      ↔ ((containsBuyPhrase (jsTrim m.body) = true ∧ 6 ≤ m.historyLen)
          ∨ containsHumanPhrase (jsTrim m.body) = true) := by
  have hred : classify m
      = (if (detectHandoffIntent (jsTrim m.body) false && decide (6 ≤ m.historyLen))
            || detectHandoffIntent (jsTrim m.body) true
         then Outcome.escalated else Outcome.aiReply) := by
    unfold classify
    rw [h1, h2, h3, h4, h5, h6, h7]
    dsimp only
    rw [hshort, hname, hbot]
    rw [htracker, hmedia, hbody, hadmin, haud, hemp]
    simp
  have hd0 : detectHandoffIntent (jsTrim m.body) false
      = (containsBuyPhrase (jsTrim m.body) || containsHumanPhrase (jsTrim m.body)) := rfl
  have hd1 : detectHandoffIntent (jsTrim m.body) true
      = containsHumanPhrase (jsTrim m.body) := rfl
  rw [hred, hd0, hd1]
  cases hb : containsBuyPhrase (jsTrim m.body) <;>
    cases hh : containsHumanPhrase (jsTrim m.body) <;>
      by_cases hhist : 6 ≤ m.historyLen <;>
        simp [hhist]

/-- Witness for C4: a plain client message containing an explicit
human-handoff phrase with only 2 stored messages — the iff instantiates
to an escalation with no history minimum. -/
theorem classify_escalation_iff_witness :
    (classify wMsgClient = Outcome.escalated
      ↔ ((containsBuyPhrase (jsTrim wMsgClient.body) = true ∧ 6 ≤ wMsgClient.historyLen)
          ∨ containsHumanPhrase (jsTrim wMsgClient.body) = true))
    ∧ containsHumanPhrase (jsTrim wMsgClient.body) = true
    ∧ wMsgClient.historyLen < 6 :=
  ⟨classify_escalation_iff wMsgClient (by decide) (by decide) (by decide) (by decide)
    (by decide) (by decide) (by decide) (by decide) (by decide) (by decide) (by decide)
    (by decide) (by decide) (by decide) (by decide) (by decide),
   by decide, by decide⟩

end Bot
